import Mathlib

/-!
# Carbon: Docker tag resolution, label merge and push orchestration

A shallow embedding of `pkg/docker/build/docker.go`.

* Methods with a pointer receiver (`ProcessTags`, `AddCarbonMetadata`) become functions
  that return the receiver after the call together with the returned `error`.
* The Docker engine client, the reference parser `dockermeta.NewDockerMeta`, the
  credential lookup and the stream relay of the `jsonmessage` package are collaborators
  whose code is not part of `docker.go`.  `ProcessTags`, `Push` and `Build` take them as
  parameters, so the general theorems hold for every parser and every engine.
* Concrete evaluations use the reference parser `NewDockerMeta` written down below from
  the description of the Reference Parser, and small sample collaborators.
-/

set_option autoImplicit false

namespace Carbon

/-! ## Errors -/

/-- Go `error` values.  The first four constructors are the error kinds produced by the
collaborators; `Wrap cause message` is `errors.Wrap(cause, message)` of
`github.com/pkg/errors`. -/
inductive Error where
  | InvalidReferenceError (raw : String)
  | CredentialsUnavailableError (registryHost : String)
  | EngineError (message : String)
  | StreamDecodeError (message : String)
  | Wrap (cause : Error) (message : String)
  deriving DecidableEq

/-- The context messages that `errors.Wrap` / `errors.Wrapf` attached to an error,
outermost first. -/
def Error.contexts : Error → List String
  | .Wrap cause message => message :: cause.contexts
  | _ => []

/-- Substring test on strings: `needle` occurs in `haystack`. -/
def containsString (haystack needle : String) : Prop :=
  needle.data <:+: haystack.data

instance (haystack needle : String) : Decidable (containsString haystack needle) := by
  unfold containsString
  infer_instance

/-! ## Data model -/

/-- The two accessors of `*dockermeta.DockerMeta` that `docker.go` reads:
`im.Name()` and `im.Tag()`. -/
structure DockerMeta where
  Name : String
  Tag : String
  deriving DecidableEq

/-- The fields of `pkgcfg.CarbonConfig.Data` that `docker.go` reads. -/
structure CarbonConfigData where
  Name : String
  Version : String
  Dockerfile : String
  Artifacts : List String
  deriving DecidableEq

/-- The configuration object `pkgcfg.CarbonConfig`. -/
structure CarbonConfig where
  Data : CarbonConfigData
  deriving DecidableEq

/-- A Go `map[string]β` that has been initialised, as the list of its entries.
`mapLookup` and `mapStore` are the only operations `docker.go` uses. -/
abbrev GoMap (β : Type) := List (String × β)

/-- Go `v, ok := m[k]`: the value stored under `k`, if any. -/
def mapLookup {β : Type} : GoMap β → String → Option β
  | [], _ => none
  | (k', v) :: rest, k => if k' = k then some v else mapLookup rest k

/-- Go `m[k] = v`: overwrite the entry of `k`, or add one. -/
def mapStore {β : Type} : GoMap β → String → β → GoMap β
  | [], k, v => [(k, v)]
  | (k', v') :: rest, k, v =>
    if k' = k then (k, v) :: rest else (k', v') :: mapStore rest k v

/-- The struct `Options` without its engine client, which is passed separately.  The
two map fields are `none` while they are the nil map (`NewOptions` leaves them nil). -/
structure Options where
  ContextPath : String
  RootConfig : CarbonConfig
  DockerTags : List String
  DockerBuildArgs : Option (GoMap (Option String))
  DockerLabels : Option (GoMap String)
  DockerNetworkMode : String
  deriving DecidableEq

/-! ## `joinTag` and `ProcessTags` -/

/-- Go `strings.Join([]string{repo, tag}, ":")`. -/
def joinTag (repo tag : String) : String :=
  String.intercalate ":" [repo, tag]

/-- Lines 53-60 of `ProcessTags`: the source list that is resolved. -/
def selectTags (self : Options) (cliTags : List String) : List String :=
  if cliTags.length > 0 then
    cliTags
  else if self.RootConfig.Data.Artifacts.length > 0 then
    self.RootConfig.Data.Artifacts
  else
    [] ++ [joinTag self.RootConfig.Data.Name self.RootConfig.Data.Version]

/-- Lines 62-78 of `ProcessTags`: the loop over the selected list.  The receiver is
threaded through; a parse error returns at once with the receiver as it is then. -/
def processLoop (parse : String → Except Error DockerMeta) :
    List String → Options → Options × Option Error
  | [], self => (self, none)
  | i :: rest, self =>
    match parse i with
    | .error err => (self, some err)
    | .ok im =>
      let name := im.Name
      let tag :=
        if i = name ∨ "docker.io/library/" ++ i = name then
          self.RootConfig.Data.Version
        else
          im.Tag
      let fullTag := joinTag name tag
      processLoop parse rest { self with DockerTags := self.DockerTags ++ [fullTag] }

/-- The method `(*Options).ProcessTags`, with the parser `dockermeta.NewDockerMeta` as
the parameter `parse`.  Returns the receiver after the call and the returned error
(`none` is Go `nil`). -/
def ProcessTags (parse : String → Except Error DockerMeta) (self : Options)
    (cliTags : List String) : Options × Option Error :=
  processLoop parse (selectTags self cliTags) self

/-- The canonical tag string that one pass of the loop of `ProcessTags` appends for the
raw string `i` (lines 63-76), `none` when `i` does not parse. -/
def resolveEntry (parse : String → Except Error DockerMeta) (version : String)
    (i : String) : Option String :=
  match parse i with
  | .error _ => none
  | .ok im =>
    some (joinTag im.Name
      (if i = im.Name ∨ "docker.io/library/" ++ i = im.Name then version else im.Tag))

/-! ## `AddCarbonMetadata` -/

/-- The text of `log.Warnf("Label '%s' is reserved by Carbon and can't be used", k)`. -/
def reservedLabelWarning (k : String) : String :=
  "Label '" ++ k ++ "' is reserved by Carbon and can't be used"

/-- Go `_, ok := self.DockerLabels[k]`; reading the nil map gives `ok = false`. -/
def labelPresent (labels : Option (GoMap String)) (k : String) : Bool :=
  match labels with
  | none => false
  | some m => (mapLookup m k).isSome

/-- The loop of `AddCarbonMetadata` over the entries of `meta` in the order in which
`range` visits them.  `warnings` collects the messages passed to `log.Warnf`.  The
result is `none` when the call panics: an assignment to an entry of the nil map. -/
def addMetadataLoop : List (String × String) → Options → List String →
    Option (Options × List String)
  | [], self, warnings => some (self, warnings)
  | (k, v) :: rest, self, warnings =>
    let warnings :=
      if labelPresent self.DockerLabels k then warnings ++ [reservedLabelWarning k]
      else warnings
    match self.DockerLabels with
    | none => none
    | some labels =>
      addMetadataLoop rest { self with DockerLabels := some (mapStore labels k v) } warnings

/-- The method `(*Options).AddCarbonMetadata`.  `meta` lists the entries of the Go map in
iteration order (its keys are pairwise distinct, the order is arbitrary).  Returns the
receiver after the call and the warnings logged by it. -/
def AddCarbonMetadata (self : Options) (meta : List (String × String)) :
    Option (Options × List String) :=
  addMetadataLoop meta self []

/-! ## Status streams -/

/-- One decoded message of an engine status stream: layer progress, streamed text, or an
inline error reported by the engine. -/
inductive JSONMessage where
  | Progress (status : String)
  | Stream (text : String)
  | ErrorDetail (message : String)
  deriving DecidableEq

/-- The body of an engine response: its sequence of status messages. -/
abbrev StatusStream := List JSONMessage

/-- The `io.Writer` chosen by `displayJSONMsg`. -/
inductive Writer where
  | buffer
  | stdout
  deriving DecidableEq

/-- The function `suppressOutput`, applied to `log.GetLevel().String()`. -/
def suppressOutput (logLevel : String) : Bool :=
  if logLevel = "warning" ∨ logLevel = "error" ∨ logLevel = "fatal" ∨ logLevel = "panic" then
    true
  else
    false

/-! ## Engine collaborators, `Push` and `Build` -/

/-- Go `types.AuthConfig` as filled in by `Push`. -/
structure AuthConfig where
  Username : String
  Password : String
  deriving DecidableEq

/-- Go `types.ImagePushOptions` as filled in by `Push`. -/
structure ImagePushOptions where
  RegistryAuth : String
  deriving DecidableEq

/-- One call `Client.ImagePush(ctx, image, options)`. -/
structure PushCall where
  image : String
  options : ImagePushOptions
  deriving DecidableEq

/-- Go `archive.TarOptions` as filled in by `Build`; `ChownOpts` is the pair (UID, GID). -/
structure TarOptions where
  ExcludePatterns : List String
  ChownOpts : Nat × Nat
  deriving DecidableEq

/-- The build context stream returned by `archive.TarWithOptions`. -/
abbrev Archive := List String

/-- Go `types.ImageBuildOptions` as filled in by `Build`. -/
structure ImageBuildOptions where
  BuildArgs : Option (GoMap (Option String))
  Context : Archive
  Dockerfile : String
  ForceRemove : Bool
  Labels : Option (GoMap String)
  NetworkMode : String
  NoCache : Bool
  PullParent : Bool
  Remove : Bool
  Tags : List String
  deriving DecidableEq

/-- Go `types.ImageBuildResponse`. -/
structure ImageBuildResponse where
  Body : StatusStream
  OSType : String
  deriving DecidableEq

/-- Everything `docker.go` calls that lives outside the file.  `ImagePush` receives the
push calls already issued to the engine, so that its answer may depend on the history. -/
structure Collaborators where
  NewDockerMeta : String → Except Error DockerMeta
  GetCredentials : DockerMeta → Except Error (String × String)
  Marshal : AuthConfig → String
  EncodeToString : String → String
  ImagePush : List PushCall → String → ImagePushOptions → Except Error StatusStream
  ReadDockerignore : String → Except Error (List String)
  TrimBuildFilesFromExcludes : List String → String → Bool → List String
  TarWithOptions : String → TarOptions → Except Error Archive
  ImageBuild : Archive → ImageBuildOptions → Except Error ImageBuildResponse
  GetLevel : String
  GetFdInfo : Writer → Nat × Bool
  DisplayJSONMessagesStream : StatusStream → Writer → Nat → Bool → Option Error

/-- The function `displayJSONMsg`: picks the writer and returns what
`jsonmessage.DisplayJSONMessagesStream` returns. -/
def displayJSONMsg (env : Collaborators) (input : StatusStream) : Option Error :=
  let out := if suppressOutput env.GetLevel then Writer.buffer else Writer.stdout
  let fdInfo := env.GetFdInfo out
  env.DisplayJSONMessagesStream input out fdInfo.1 fdInfo.2

/-- The loop of `Push`.  `calls` is the log of `ImagePush` calls issued so far; the
result is the log at return and the returned error.  The value of
`displayJSONMsg(response)` is computed and dropped, as in the source. -/
def pushLoop (env : Collaborators) : List String → List PushCall →
    List PushCall × Option Error
  | [], calls => (calls, none)
  | i :: rest, calls =>
    match env.NewDockerMeta i with
    | .error err => (calls, some err)
    | .ok im =>
      match env.GetCredentials im with
      | .error err => (calls, some (Error.Wrap err "getting registry credentials"))
      | .ok (username, password) =>
        let auth : AuthConfig := { Username := username, Password := password }
        let authBytes := env.Marshal auth
        let authBase64 := env.EncodeToString authBytes
        let opt : ImagePushOptions := { RegistryAuth := authBase64 }
        match env.ImagePush calls i opt with
        | .error err =>
          (calls ++ [{ image := i, options := opt }],
            some (Error.Wrap err ("pushing Docker image `" ++ i ++ "`")))
        | .ok response =>
          let _ := displayJSONMsg env response
          pushLoop env rest (calls ++ [{ image := i, options := opt }])

/-- The method `(*Options).Push`: the `ImagePush` calls it issued, in order, and the
error it returned. -/
def Push (env : Collaborators) (self : Options) : List PushCall × Option Error :=
  pushLoop env self.DockerTags []

/-- The method `(*Options).Build`: the error it returned. -/
def Build (env : Collaborators) (self : Options) : Option Error :=
  match env.ReadDockerignore self.ContextPath with
  | .error err => some (Error.Wrap err "reading dockerignore file")
  | .ok excludes =>
    let excludes := env.TrimBuildFilesFromExcludes excludes self.RootConfig.Data.Dockerfile false
    match env.TarWithOptions self.ContextPath
        { ExcludePatterns := excludes, ChownOpts := (0, 0) } with
    | .error err => some (Error.Wrap err "creating Docker build context")
    | .ok ctx =>
      let opt : ImageBuildOptions :=
        { BuildArgs := self.DockerBuildArgs
          Context := ctx
          Dockerfile := self.RootConfig.Data.Dockerfile
          ForceRemove := true
          Labels := self.DockerLabels
          NetworkMode := self.DockerNetworkMode
          NoCache := false
          PullParent := true
          Remove := true
          Tags := self.DockerTags }
      match env.ImageBuild ctx opt with
      | .error err => some (Error.Wrap err "building Docker image")
      | .ok response => displayJSONMsg env response.Body

/-! ## The reference parser and sample collaborators

The package `pkg/docker/metadata` and the Docker libraries are not part of `docker.go`.
The definitions below are used only to evaluate the functions above on concrete inputs. -/

/-- Modelled from the spec: a step of the Reference Parser (package `pkg/docker/metadata`,
missing from the sources).  Split at the last colon: `some (before, after)`, or `none`
without a colon. -/
def splitLastColon : List Char → Option (List Char × List Char)
  | [] => none
  | c :: cs =>
    match splitLastColon cs with
    | some (before, after) => some (c :: before, after)
    | none => if c = ':' then some ([], cs) else none

/-- Modelled from the spec: a step of the Reference Parser.  Split at the first slash:
`some (before, after)`, or `none` without a slash. -/
def splitFirstSlash : List Char → Option (List Char × List Char)
  | [] => none
  | c :: cs =>
    if c = '/' then some ([], cs)
    else
      match splitFirstSlash cs with
      | some (before, after) => some (c :: before, after)
      | none => none

/-- Modelled from the spec: a step of the Reference Parser.  The raw string without its
tag, and the tag when one is written.  A colon that is followed by a slash belongs to a
registry host with a port, not to a tag. -/
def splitTag (raw : List Char) : List Char × Option (List Char) :=
  match splitLastColon raw with
  | some (remote, tag) => if '/' ∈ tag then (raw, none) else (remote, some tag)
  | none => (raw, none)

/-- Modelled from the spec: a step of the Reference Parser.  Host detection on the first
path segment: a dot, a colon, or exactly `localhost`. -/
def isRegistryHost (segment : List Char) : Bool :=
  decide ('.' ∈ segment) || decide (':' ∈ segment) || decide (segment = "localhost".data)

/-- Modelled from the spec: a step of the Reference Parser.  Registry host and repository
path of a reference without its tag.  Without a host in the first segment the default
registry `docker.io` applies, and a single-segment name is placed under its implicit
namespace `library/`. -/
def splitHost (remote : List Char) : List Char × List Char :=
  match splitFirstSlash remote with
  | some (first, rest) =>
    if isRegistryHost first then (first, rest) else ("docker.io".data, remote)
  | none => ("docker.io".data, "library/".data ++ remote)

/-- Modelled from the spec: the characters that are legal in a repository path. -/
def legalPathChar (c : Char) : Bool :=
  c.isLower || c.isDigit || decide (c = '.') || decide (c = '_') || decide (c = '-')
    || decide (c = '/')

/-- Modelled from the spec: the characters that are legal in a registry host (with an
optional port). -/
def legalHostChar (c : Char) : Bool :=
  c.isAlphanum || decide (c = '.') || decide (c = '_') || decide (c = '-')
    || decide (c = ':')

/-- Modelled from the spec: the characters that are legal in a tag. -/
def legalTagChar (c : Char) : Bool :=
  c.isAlphanum || decide (c = '.') || decide (c = '_') || decide (c = '-')

/-- Modelled from the spec: a repository path is non-empty and so is each of its
segments.  `atStart` says that a segment begins here: the path neither begins nor ends
with a slash and has no two slashes in a row. -/
def segmentsNonEmpty (atStart : Bool) : List Char → Bool
  | [] => !atStart
  | c :: cs =>
    if c = '/' then !atStart && segmentsNonEmpty true cs
    else segmentsNonEmpty false cs

/-- Modelled from the spec: the last step of the Reference Parser, validation of the
parts of a reference and assembly of the result.  Parsing fails on an empty repository
path or path segment, on an illegal character, and on an empty tag after a trailing
colon; a reference without a tag gets the inferred tag `latest`. -/
def assembleReference (raw : String) (host path : List Char) (tag : Option (List Char)) :
    Except Error DockerMeta :=
  if segmentsNonEmpty true path = false ∨ path.all legalPathChar = false
      ∨ host.all legalHostChar = false then
    .error (.InvalidReferenceError raw)
  else
    match tag with
    | none => .ok { Name := String.mk (host ++ '/' :: path), Tag := "latest" }
    | some [] => .error (.InvalidReferenceError raw)
    | some (t :: ts) =>
      if (t :: ts).all legalTagChar then
        .ok { Name := String.mk (host ++ '/' :: path), Tag := String.mk (t :: ts) }
      else
        .error (.InvalidReferenceError raw)

/-- Modelled from the spec: `dockermeta.NewDockerMeta` with the accessors `Name()` and
`Tag()`, whose package `pkg/docker/metadata` is missing from the sources.  Following the
Reference Parser of the specification: the raw string is split into registry host,
repository path and optional tag; a host is detected by a dot, a colon or `localhost`
in the first path segment, otherwise the default registry applies; an unqualified
single-segment name is normalised to `docker.io/library/<name>` (the form that line 70
of `docker.go` compares `Name()` with); parsing fails on an empty repository path or
path segment, on an illegal character and on an empty tag after a trailing colon.
`Name()` is `registryHost/repositoryPath`; for a raw string without a tag the inferred
tag is taken to be `latest`. -/
def NewDockerMeta (raw : String) : Except Error DockerMeta :=
  let split := splitTag raw.data
  let hostPath := splitHost split.1
  assembleReference raw hostPath.1 hostPath.2 split.2

/-- Modelled from the spec: the registry host of a parsed reference, the first segment
of its name. -/
def registryHost (im : DockerMeta) : String :=
  match splitFirstSlash im.Name.data with
  | some (host, _) => String.mk host
  | none => ""

/-- Modelled from the spec: the Credential Resolver `GetCredentials`, as a lookup of the
registry host of the reference in a table of credentials; it fails with
`CredentialsUnavailableError` when the table has no entry for the host. -/
def lookupCredentials (table : GoMap (String × String)) (im : DockerMeta) :
    Except Error (String × String) :=
  match mapLookup table (registryHost im) with
  | some credential => .ok credential
  | none => .error (.CredentialsUnavailableError (registryHost im))

/-- Modelled from the spec: the Progress Stream Relay
`jsonmessage.DisplayJSONMessagesStream`.  Messages are consumed in order; an inline
error message ends the relay with a `StreamDecodeError`, every other message is
rendered (or discarded) and the relay goes on.  The writer and the terminal
information affect the rendering only. -/
def relayMessages : StatusStream → Writer → Nat → Bool → Option Error
  | [], _, _, _ => none
  | .ErrorDetail message :: _, _, _, _ => some (.StreamDecodeError message)
  | _ :: rest, out, termFd, isTerm => relayMessages rest out termFd isTerm

/-- A sample engine: pushing the image `docker.io/library/broken:1.0` is refused by the
call itself, pushing `docker.io/library/denied:1.0` is answered by a stream with an
inline error, every other push is answered by a plain progress stream. -/
def sampleImagePush (_history : List PushCall) (image : String) (_options : ImagePushOptions) :
    Except Error StatusStream :=
  if image = "docker.io/library/broken:1.0" then
    .error (.EngineError "connection refused")
  else if image = "docker.io/library/denied:1.0" then
    .ok [.Progress "Preparing", .ErrorDetail "denied: requested access to the resource is denied"]
  else
    .ok [.Progress "Preparing", .Progress "Pushed"]

/-- A sample engine build call: the build of the Dockerfile `Dockerfile.broken` reports
an inline error in its stream. -/
def sampleImageBuild (_ctx : Archive) (opt : ImageBuildOptions) :
    Except Error ImageBuildResponse :=
  if opt.Dockerfile = "Dockerfile.broken" then
    .ok { Body := [.Stream "Step 1/2 : FROM scratch", .ErrorDetail "COPY failed"],
          OSType := "linux" }
  else
    .ok { Body := [.Stream "Step 1/1 : FROM scratch", .Stream "Successfully built"],
          OSType := "linux" }

/-- Sample collaborators: the reference parser above, credentials for the default
registry only, the sample engine, and the relay above at log level `info`. -/
def sampleEnv : Collaborators where
  NewDockerMeta := NewDockerMeta
  GetCredentials := lookupCredentials [("docker.io", ("carbon", "secret"))]
  Marshal := fun auth => auth.Username ++ ":" ++ auth.Password
  EncodeToString := fun bytes => bytes
  ImagePush := sampleImagePush
  ReadDockerignore := fun _ => .ok [".git", "Dockerfile"]
  TrimBuildFilesFromExcludes := fun excludes dockerfile _ =>
    excludes.filter (fun pattern => pattern ≠ dockerfile)
  TarWithOptions := fun root _ => .ok [root]
  ImageBuild := sampleImageBuild
  GetLevel := "info"
  GetFdInfo := fun _ => (1, false)
  DisplayJSONMessagesStream := relayMessages

/-- A sample configuration: project `app` at the given version, no artifacts. -/
def sampleConfig (version : String) : CarbonConfig :=
  { Data := { Name := "app", Version := version, Dockerfile := "Dockerfile", Artifacts := [] } }

/-- A fresh session as `NewOptions` builds it: no tags, nil maps. -/
def sampleOptions (version : String) : Options :=
  { ContextPath := "."
    RootConfig := sampleConfig version
    DockerTags := []
    DockerBuildArgs := none
    DockerLabels := none
    DockerNetworkMode := "" }

/-! ## Auxiliary facts about `joinTag` and the loop of `ProcessTags` -/

theorem joinTag_eq (repo tag : String) : joinTag repo tag = repo ++ ":" ++ tag := by
  simp [joinTag, String.intercalate, String.intercalate.go]

theorem joinTag_length (repo tag : String) :
    (joinTag repo tag).length = repo.length + 1 + tag.length := by
  rw [joinTag_eq, String.length_append, String.length_append]
  rfl

theorem joinTag_ne_left (repo tag : String) : joinTag repo tag ≠ repo := by
  intro h
  have := congrArg String.length h
  rw [joinTag_length] at this
  omega

theorem library_joinTag_ne_left (repo tag : String) :
    "docker.io/library/" ++ joinTag repo tag ≠ repo := by
  intro h
  have := congrArg String.length h
  rw [String.length_append, joinTag_length] at this
  omega

theorem processLoop_nil (parse : String → Except Error DockerMeta) (self : Options) :
    processLoop parse [] self = (self, none) := rfl

theorem processLoop_cons_error (parse : String → Except Error DockerMeta) (self : Options)
    (i : String) (rest : List String) (err : Error) (h : parse i = .error err) :
    processLoop parse (i :: rest) self = (self, some err) := by
  simp [processLoop, h]

theorem processLoop_cons_ok (parse : String → Except Error DockerMeta) (self : Options)
    (i : String) (rest : List String) (im : DockerMeta) (h : parse i = .ok im) :
    processLoop parse (i :: rest) self =
      processLoop parse rest
        { self with
          DockerTags := self.DockerTags ++
            [joinTag im.Name
              (if i = im.Name ∨ "docker.io/library/" ++ i = im.Name then
                self.RootConfig.Data.Version else im.Tag)] } := by
  simp [processLoop, h]

theorem resolveEntry_ok (parse : String → Except Error DockerMeta) (version i : String)
    (im : DockerMeta) (h : parse i = .ok im) :
    resolveEntry parse version i =
      some (joinTag im.Name
        (if i = im.Name ∨ "docker.io/library/" ++ i = im.Name then version else im.Tag)) := by
  simp [resolveEntry, h]

/-- When every entry parses, the loop succeeds and appends one resolved string for each
entry, in order. -/
theorem processLoop_all_ok (parse : String → Except Error DockerMeta) :
    ∀ (xs : List String) (self : Options),
      (∀ i ∈ xs, ∃ im, parse i = .ok im) →
      processLoop parse xs self =
        ({ self with
           DockerTags := self.DockerTags ++
             xs.filterMap (resolveEntry parse self.RootConfig.Data.Version) }, none) := by
  intro xs
  induction xs with
  | nil => intro self _; simp [processLoop]
  | cons i rest ih =>
    intro self h
    obtain ⟨im, him⟩ := h i (List.mem_cons_self i rest)
    rw [processLoop_cons_ok parse self i rest im him,
      ih _ (fun j hj => h j (List.mem_cons_of_mem i hj))]
    simp [List.filterMap_cons, resolveEntry_ok parse _ i im him]

theorem filterMap_resolveEntry_length (parse : String → Except Error DockerMeta)
    (version : String) :
    ∀ xs : List String, (∀ i ∈ xs, ∃ im, parse i = .ok im) →
      (xs.filterMap (resolveEntry parse version)).length = xs.length := by
  intro xs
  induction xs with
  | nil => intro _; rfl
  | cons i rest ih =>
    intro h
    obtain ⟨im, him⟩ := h i (List.mem_cons_self i rest)
    simp [List.filterMap_cons, resolveEntry_ok parse version i im him,
      ih (fun j hj => h j (List.mem_cons_of_mem i hj))]

theorem filterMap_resolveEntry_eq_map (parse : String → Except Error DockerMeta)
    (version : String) :
    ∀ xs : List String, (∀ i ∈ xs, ∃ im, parse i = .ok im) →
      (xs.filterMap (resolveEntry parse version)).map some =
        xs.map (resolveEntry parse version) := by
  intro xs
  induction xs with
  | nil => intro _; rfl
  | cons i rest ih =>
    intro h
    obtain ⟨im, him⟩ := h i (List.mem_cons_self i rest)
    simp [List.filterMap_cons, resolveEntry_ok parse version i im him,
      ih (fun j hj => h j (List.mem_cons_of_mem i hj))]

/-- The loop over `pre ++ rest`, when every entry of `pre` parses: the entries of `pre`
are resolved and appended, then the loop goes on with `rest`. -/
theorem processLoop_append_ok (parse : String → Except Error DockerMeta)
    (pre rest : List String) (self : Options) (h : ∀ i ∈ pre, ∃ im, parse i = .ok im) :
    processLoop parse (pre ++ rest) self =
      processLoop parse rest
        { self with
          DockerTags := self.DockerTags ++
            pre.filterMap (resolveEntry parse self.RootConfig.Data.Version) } := by
  induction pre generalizing self with
  | nil => simp
  | cons i pre ih =>
    obtain ⟨im, him⟩ := h i (List.mem_cons_self i pre)
    rw [List.cons_append, processLoop_cons_ok parse self i _ im him,
      ih _ (fun j hj => h j (List.mem_cons_of_mem i hj))]
    simp [List.filterMap_cons, resolveEntry_ok parse _ i im him]

/-- The loop only ever appends to `DockerTags`; every other field is left as it was. -/
theorem processLoop_extends (parse : String → Except Error DockerMeta) :
    ∀ (xs : List String) (self : Options),
      ∃ added, (processLoop parse xs self).1 =
        { self with DockerTags := self.DockerTags ++ added } := by
  intro xs
  induction xs with
  | nil => intro self; exact ⟨[], by simp [processLoop]⟩
  | cons i rest ih =>
    intro self
    cases him : parse i with
    | error err => exact ⟨[], by simp [processLoop, him]⟩
    | ok im =>
      rw [processLoop_cons_ok parse self i rest im him]
      obtain ⟨added, hadded⟩ := ih
        { self with
          DockerTags := self.DockerTags ++
            [joinTag im.Name
              (if i = im.Name ∨ "docker.io/library/" ++ i = im.Name then
                self.RootConfig.Data.Version else im.Tag)] }
      refine ⟨joinTag im.Name
        (if i = im.Name ∨ "docker.io/library/" ++ i = im.Name then
          self.RootConfig.Data.Version else im.Tag) :: added, ?_⟩
      rw [hadded]
      simp

/-- A loop that returns no error has parsed every entry. -/
theorem processLoop_none_all_ok (parse : String → Except Error DockerMeta) :
    ∀ (xs : List String) (self : Options),
      (processLoop parse xs self).2 = none → ∀ i ∈ xs, ∃ im, parse i = .ok im := by
  intro xs
  induction xs with
  | nil => intro _ _ i hi; cases hi
  | cons j rest ih =>
    intro self h i hi
    cases hj : parse j with
    | error err => simp [processLoop, hj] at h
    | ok im =>
      rw [processLoop_cons_ok parse self j rest im hj] at h
      rcases List.mem_cons.mp hi with rfl | hmem
      · exact ⟨im, hj⟩
      · exact ih _ h i hmem

theorem selectTags_ne_nil (self : Options) (cliTags : List String) :
    selectTags self cliTags ≠ [] := by
  unfold selectTags
  split
  · intro h; simp_all
  · split
    · intro h; simp_all
    · simp

theorem selectTags_cli (self : Options) (cliTags : List String) (h : cliTags ≠ []) :
    selectTags self cliTags = cliTags := by
  have : cliTags.length > 0 := List.length_pos.mpr h
  simp [selectTags, this]

/-- The entry appended for the raw string at position `pre.length` of the selected list,
when it and everything before it parses: it sits at that position behind the tags the
session already had. -/
theorem ProcessTags_entry_at (parse : String → Except Error DockerMeta) (self : Options)
    (cliTags pre post : List String) (i : String) (im : DockerMeta)
    (hsel : selectTags self cliTags = pre ++ i :: post)
    (hpre : ∀ j ∈ pre, ∃ m, parse j = .ok m)
    (hi : parse i = .ok im) :
    (ProcessTags parse self cliTags).1.DockerTags[self.DockerTags.length + pre.length]? =
      some (joinTag im.Name
        (if i = im.Name ∨ "docker.io/library/" ++ i = im.Name then
          self.RootConfig.Data.Version else im.Tag)) := by
  unfold ProcessTags
  rw [hsel, processLoop_append_ok parse pre (i :: post) self hpre,
    processLoop_cons_ok parse _ i post im hi]
  obtain ⟨added, hadded⟩ := processLoop_extends parse post
    { self with
      DockerTags := self.DockerTags ++
        pre.filterMap (resolveEntry parse self.RootConfig.Data.Version) ++
        [joinTag im.Name
          (if i = im.Name ∨ "docker.io/library/" ++ i = im.Name then
            self.RootConfig.Data.Version else im.Tag)] }
  have hlen := filterMap_resolveEntry_length parse self.RootConfig.Data.Version pre hpre
  simp only at hadded ⊢
  rw [hadded]
  simp only [List.append_assoc]
  rw [List.getElem?_append_right (by omega), List.getElem?_append_right (by omega)]
  simp [hlen]

/-- The tags and the error produced by the loop depend on the session only through its
tags and the configured version. -/
theorem processLoop_congr (parse : String → Except Error DockerMeta) :
    ∀ (xs : List String) (self other : Options),
      self.DockerTags = other.DockerTags →
      self.RootConfig.Data.Version = other.RootConfig.Data.Version →
      (processLoop parse xs self).1.DockerTags = (processLoop parse xs other).1.DockerTags ∧
      (processLoop parse xs self).2 = (processLoop parse xs other).2 := by
  intro xs
  induction xs with
  | nil => intro self other ht _; exact ⟨ht, rfl⟩
  | cons i rest ih =>
    intro self other ht hv
    cases hi : parse i with
    | error err =>
      rw [processLoop_cons_error parse self i rest err hi,
        processLoop_cons_error parse other i rest err hi]
      exact ⟨ht, rfl⟩
    | ok im =>
      rw [processLoop_cons_ok parse self i rest im hi,
        processLoop_cons_ok parse other i rest im hi]
      exact ih _ _ (by simp [ht, hv]) hv

/-- Re-resolving strings `name:tag` that the parser maps back to `name` and `tag`
appends exactly these strings. -/
theorem processLoop_fixed (parse : String → Except Error DockerMeta) :
    ∀ (rs : List String) (self : Options),
      (∀ r ∈ rs, ∃ name tag, r = joinTag name tag ∧
        parse r = .ok { Name := name, Tag := tag }) →
      processLoop parse rs self =
        ({ self with DockerTags := self.DockerTags ++ rs }, none) := by
  intro rs
  induction rs with
  | nil => intro self _; simp [processLoop]
  | cons r rest ih =>
    intro self h
    obtain ⟨name, tag, hr, hparse⟩ := h r (List.mem_cons_self r rest)
    rw [processLoop_cons_ok parse self r rest _ hparse,
      ih _ (fun j hj => h j (List.mem_cons_of_mem r hj))]
    have h1 : r ≠ name := by rw [hr]; exact joinTag_ne_left name tag
    have h2 : "docker.io/library/" ++ r ≠ name := by
      rw [hr]; exact library_joinTag_ne_left name tag
    simp [h1, h2, ← hr]

/-! ## The reference parser maps its own output back to itself -/

theorem splitLastColon_none (l : List Char) (h : ':' ∉ l) : splitLastColon l = none := by
  induction l with
  | nil => rfl
  | cons c cs ih =>
    rw [List.mem_cons, not_or] at h
    have hc : c ≠ ':' := fun e => h.1 e.symm
    simp [splitLastColon, ih h.2, hc]

theorem splitLastColon_append (xs tag : List Char) (h : ':' ∉ tag) :
    splitLastColon (xs ++ ':' :: tag) = some (xs, tag) := by
  induction xs with
  | nil => simp [splitLastColon, splitLastColon_none tag h]
  | cons c cs ih => simp [splitLastColon, ih]

theorem splitFirstSlash_append (host path : List Char) (h : '/' ∉ host) :
    splitFirstSlash (host ++ '/' :: path) = some (host, path) := by
  induction host with
  | nil => simp [splitFirstSlash]
  | cons c cs ih =>
    rw [List.mem_cons, not_or] at h
    have hc : c ≠ '/' := fun e => h.1 e.symm
    simp [splitFirstSlash, hc, ih h.2]

theorem splitFirstSlash_some (l first rest : List Char)
    (h : splitFirstSlash l = some (first, rest)) : '/' ∉ first := by
  induction l generalizing first with
  | nil => simp [splitFirstSlash] at h
  | cons c cs ih =>
    by_cases hc : c = '/'
    · simp [splitFirstSlash, hc] at h
      rw [h.1]
      simp
    · simp only [splitFirstSlash, hc, if_false] at h
      cases hcs : splitFirstSlash cs with
      | none => rw [hcs] at h; cases h
      | some p =>
        obtain ⟨a, b⟩ := p
        rw [hcs] at h
        simp only [Option.some.injEq, Prod.mk.injEq] at h
        rw [← h.1, List.mem_cons, not_or]
        exact ⟨fun e => hc e.symm, ih a (by rw [hcs, h.2])⟩

/-- The host chosen by `splitHost` has no slash and is recognised as a registry host. -/
theorem splitHost_host (remote : List Char) :
    '/' ∉ (splitHost remote).1 ∧ isRegistryHost (splitHost remote).1 = true := by
  unfold splitHost
  cases h : splitFirstSlash remote with
  | none =>
    show '/' ∉ "docker.io".data ∧ isRegistryHost "docker.io".data = true
    exact ⟨by decide, by decide⟩
  | some p =>
    obtain ⟨first, rest⟩ := p
    dsimp only
    by_cases hr : isRegistryHost first = true
    · rw [if_pos hr]
      exact ⟨splitFirstSlash_some remote first rest h, hr⟩
    · rw [if_neg hr]
      show '/' ∉ "docker.io".data ∧ isRegistryHost "docker.io".data = true
      exact ⟨by decide, by decide⟩

theorem legalTagChar_no_colon (tag : List Char) (h : tag.all legalTagChar = true) :
    ':' ∉ tag ∧ '/' ∉ tag := by
  rw [List.all_eq_true] at h
  refine ⟨fun hm => ?_, fun hm => ?_⟩
  · exact absurd (h _ hm) (by decide)
  · exact absurd (h _ hm) (by decide)

/-- A canonical string `host/path:tag` parses back to its name and its tag. -/
theorem NewDockerMeta_canonical (host path tag : List Char)
    (hslash : '/' ∉ host) (hhost : isRegistryHost host = true)
    (hpath : segmentsNonEmpty true path = true) (hpathLegal : path.all legalPathChar = true)
    (hhostLegal : host.all legalHostChar = true)
    (htag : tag ≠ []) (htagLegal : tag.all legalTagChar = true) :
    NewDockerMeta (joinTag (String.mk (host ++ '/' :: path)) (String.mk tag)) =
      .ok { Name := String.mk (host ++ '/' :: path), Tag := String.mk tag } := by
  have hdata : (joinTag (String.mk (host ++ '/' :: path)) (String.mk tag)).data =
      (host ++ '/' :: path) ++ ':' :: tag := by
    rw [joinTag_eq]
    simp [String.data_append]
  obtain ⟨hcolon, htslash⟩ := legalTagChar_no_colon tag htagLegal
  have hsplit : splitTag ((host ++ '/' :: path) ++ ':' :: tag) =
      (host ++ '/' :: path, some tag) := by
    simp only [splitTag, splitLastColon_append _ tag hcolon, htslash, if_false]
  have hsh : splitHost (host ++ '/' :: path) = (host, path) := by
    simp only [splitHost, splitFirstSlash_append host path hslash, hhost, if_true]
  unfold NewDockerMeta
  rw [hdata]
  simp only [hsplit, hsh]
  cases tag with
  | nil => exact absurd rfl htag
  | cons t ts => simp [assembleReference, hpath, hpathLegal, hhostLegal, htagLegal]

/-- Assembly succeeds only on validated parts, and then the canonical string of the
result parses back to the result. -/
theorem assembleReference_roundtrip (raw : String) (host path : List Char)
    (tag : Option (List Char)) (im : DockerMeta)
    (hslash : '/' ∉ host) (hhost : isRegistryHost host = true)
    (h : assembleReference raw host path tag = .ok im) :
    NewDockerMeta (joinTag im.Name im.Tag) = .ok im := by
  unfold assembleReference at h
  split at h
  · cases h
  · rename_i hvalid
    simp only [not_or] at hvalid
    obtain ⟨hseg, hpl, hhl⟩ := hvalid
    have hpath : segmentsNonEmpty true path = true := by
      cases hx : segmentsNonEmpty true path
      · exact absurd hx hseg
      · rfl
    have hpl2 : path.all legalPathChar = true := by
      cases hx : path.all legalPathChar
      · exact absurd hx hpl
      · rfl
    have hhl2 : host.all legalHostChar = true := by
      cases hx : host.all legalHostChar
      · exact absurd hx hhl
      · rfl
    cases tag with
    | none =>
      simp only [Except.ok.injEq] at h
      rw [← h]
      exact NewDockerMeta_canonical host path "latest".data hslash hhost hpath hpl2 hhl2
        (by decide) (by decide)
    | some tag =>
      cases tag with
      | nil => cases h
      | cons t ts =>
        simp only at h
        split at h
        · rename_i htl
          simp only [Except.ok.injEq] at h
          rw [← h]
          exact NewDockerMeta_canonical host path (t :: ts) hslash hhost hpath hpl2 hhl2
            (by simp) htl
        · cases h

/-- The reference parser maps the string `name:tag` built from a reference it produced
back to the same name and tag. -/
theorem NewDockerMeta_roundtrip (raw : String) (im : DockerMeta)
    (h : NewDockerMeta raw = .ok im) :
    NewDockerMeta (joinTag im.Name im.Tag) = .ok im := by
  obtain ⟨hslash, hhost⟩ := splitHost_host (splitTag raw.data).1
  exact assembleReference_roundtrip raw _ _ _ im hslash hhost h

/-! ## Claims about `ProcessTags` -/

/-- C1 (as amended): the version-substitution rule.  For every parser and every raw
string `i` of the selected list that is reached by the loop (it and the entries before
it parse), with `name` the parsed name of `i`, the string appended for `i` is
`joinTag name configVersion` when `i = name` or `"docker.io/library/" ++ i = name`, and
`joinTag name tag` with the parser's tag otherwise; in particular an input whose parsed
name differs from both keeps the parser's tag. -/
theorem ProcessTags_version_substitution (parse : String → Except Error DockerMeta)
    (self : Options) (cliTags pre post : List String) (i : String) (im : DockerMeta)
    (hsel : selectTags self cliTags = pre ++ i :: post)
    (hpre : ∀ j ∈ pre, ∃ m, parse j = .ok m)
    (hi : parse i = .ok im) :
    (ProcessTags parse self cliTags).1.DockerTags[self.DockerTags.length + pre.length]? =
        some (if i = im.Name ∨ "docker.io/library/" ++ i = im.Name then
            joinTag im.Name self.RootConfig.Data.Version
          else joinTag im.Name im.Tag) ∧
      (i ≠ im.Name → "docker.io/library/" ++ i ≠ im.Name →
        (ProcessTags parse self cliTags).1.DockerTags[self.DockerTags.length + pre.length]? =
          some (joinTag im.Name im.Tag)) := by
  have h := ProcessTags_entry_at parse self cliTags pre post i im hsel hpre hi
  refine ⟨?_, ?_⟩
  · rw [h]
    split <;> rfl
  · intro h1 h2
    rw [h]
    simp [h1, h2]

/-- C1, the scenario of the claim: with CLI tags `myregistry.io/app:latest` and `app` and
version `2.0.0`, the second entry is version-substituted under its normalised name. -/
theorem ProcessTags_version_substitution_witness :
    selectTags (sampleOptions "2.0.0") ["myregistry.io/app:latest", "app"] =
        ["myregistry.io/app:latest"] ++ "app" :: [] ∧
      NewDockerMeta "app" = .ok { Name := "docker.io/library/app", Tag := "latest" } ∧
      (ProcessTags NewDockerMeta (sampleOptions "2.0.0")
          ["myregistry.io/app:latest", "app"]).1.DockerTags[1]? =
        some "docker.io/library/app:2.0.0" :=
  ⟨rfl, rfl,
    (ProcessTags_version_substitution NewDockerMeta (sampleOptions "2.0.0")
      ["myregistry.io/app:latest", "app"] ["myregistry.io/app:latest"] [] "app"
      { Name := "docker.io/library/app", Tag := "latest" } rfl
      (by
        intro j hj
        rw [List.mem_singleton] at hj
        subst hj
        exact ⟨{ Name := "myregistry.io/app", Tag := "latest" }, rfl⟩)
      rfl).1⟩

/-- C1, counterexample to the scenario as the claim writes it: the resolved list is
`myregistry.io/app:latest`, `docker.io/library/app:2.0.0`, not
`myregistry.io/app:latest`, `app:2.0.0`. -/
theorem ProcessTags_scenario_not_bare_name :
    ProcessTags NewDockerMeta (sampleOptions "2.0.0") ["myregistry.io/app:latest", "app"] =
        ({ sampleOptions "2.0.0" with
           DockerTags := ["myregistry.io/app:latest", "docker.io/library/app:2.0.0"] }, none) ∧
      (ProcessTags NewDockerMeta (sampleOptions "2.0.0")
          ["myregistry.io/app:latest", "app"]).1.DockerTags ≠
        ["myregistry.io/app:latest", "app:2.0.0"] := by
  decide

/-- C2: source-list priority.  The resolved list is `cliTags` when that is non-empty,
otherwise the configured artifact list when that is non-empty, otherwise the single
string `configName:configVersion`; and with non-empty CLI tags the produced tags and
the error do not depend on the artifact list. -/
theorem ProcessTags_source_priority (parse : String → Except Error DockerMeta)
    (self : Options) (cliTags : List String) :
    (cliTags ≠ [] →
        selectTags self cliTags = cliTags ∧
        ProcessTags parse self cliTags = processLoop parse cliTags self) ∧
      (cliTags = [] → self.RootConfig.Data.Artifacts ≠ [] →
        selectTags self cliTags = self.RootConfig.Data.Artifacts ∧
        ProcessTags parse self cliTags =
          processLoop parse self.RootConfig.Data.Artifacts self) ∧
      (cliTags = [] → self.RootConfig.Data.Artifacts = [] →
        selectTags self cliTags =
          [self.RootConfig.Data.Name ++ ":" ++ self.RootConfig.Data.Version] ∧
        ProcessTags parse self cliTags =
          processLoop parse
            [self.RootConfig.Data.Name ++ ":" ++ self.RootConfig.Data.Version] self) ∧
      (cliTags ≠ [] → ∀ artifacts : List String,
        (ProcessTags parse
            { self with
              RootConfig := { Data := { self.RootConfig.Data with Artifacts := artifacts } } }
            cliTags).1.DockerTags = (ProcessTags parse self cliTags).1.DockerTags ∧
        (ProcessTags parse
            { self with
              RootConfig := { Data := { self.RootConfig.Data with Artifacts := artifacts } } }
            cliTags).2 = (ProcessTags parse self cliTags).2) := by
  have hcli : ∀ (s : Options), cliTags ≠ [] → selectTags s cliTags = cliTags := by
    intro s hne
    have : cliTags.length > 0 := List.length_pos.mpr hne
    simp [selectTags, this]
  refine ⟨?_, ?_, ?_, ?_⟩
  · intro hne
    exact ⟨hcli self hne, by rw [ProcessTags, hcli self hne]⟩
  · intro hnil hart
    have h2 : self.RootConfig.Data.Artifacts.length > 0 := List.length_pos.mpr hart
    have : selectTags self cliTags = self.RootConfig.Data.Artifacts := by
      simp [selectTags, hnil, h2]
    exact ⟨this, by rw [ProcessTags, this]⟩
  · intro hnil hart
    have : selectTags self cliTags =
        [self.RootConfig.Data.Name ++ ":" ++ self.RootConfig.Data.Version] := by
      simp [selectTags, hnil, hart, joinTag_eq]
    exact ⟨this, by rw [ProcessTags, this]⟩
  · intro hne artifacts
    rw [ProcessTags, ProcessTags, hcli _ hne, hcli _ hne]
    exact processLoop_congr parse cliTags _ _ rfl rfl

/-- C2, the scenario of the claim: project `app`, version `1.2.3`, no CLI tags and no
artifacts.  The selected list is the single string `app:1.2.3`, and its resolved tag is
the registry-normalised `docker.io/library/app:1.2.3`. -/
theorem ProcessTags_source_priority_witness :
    selectTags (sampleOptions "1.2.3") [] = ["app:1.2.3"] ∧
      ProcessTags NewDockerMeta (sampleOptions "1.2.3") [] =
        ({ sampleOptions "1.2.3" with DockerTags := ["docker.io/library/app:1.2.3"] }, none) :=
  ⟨((ProcessTags_source_priority NewDockerMeta (sampleOptions "1.2.3") []).2.2.1 rfl rfl).1,
    ((ProcessTags_source_priority NewDockerMeta (sampleOptions "1.2.3") []).2.2.1
      rfl rfl).2.trans (by decide)⟩

/-- C3: `ProcessTags` is order-preserving.  When every entry of the selected list
parses, the call succeeds and appends a list `added` of exactly the length of the
selected list, whose `k`-th element is the canonical string `name:tag` computed from the
`k`-th entry alone; equal source entries give equal output entries, so nothing is
deduplicated, reordered or dropped. -/
theorem ProcessTags_order_preserving (parse : String → Except Error DockerMeta)
    (self : Options) (cliTags : List String)
    (hall : ∀ i ∈ selectTags self cliTags, ∃ im, parse i = .ok im) :
    ∃ added : List String,
      ProcessTags parse self cliTags =
          ({ self with DockerTags := self.DockerTags ++ added }, none) ∧
        added.length = (selectTags self cliTags).length ∧
        (∀ (k : Nat) (i : String) (im : DockerMeta),
          (selectTags self cliTags)[k]? = some i → parse i = .ok im →
          added[k]? =
            some (joinTag im.Name
              (if i = im.Name ∨ "docker.io/library/" ++ i = im.Name then
                self.RootConfig.Data.Version else im.Tag))) ∧
        (∀ j k : Nat, (selectTags self cliTags)[j]? = (selectTags self cliTags)[k]? →
          added[j]? = added[k]?) := by
  have hmap := filterMap_resolveEntry_eq_map parse self.RootConfig.Data.Version
    (selectTags self cliTags) hall
  have hget : ∀ k : Nat,
      ((selectTags self cliTags).filterMap
          (resolveEntry parse self.RootConfig.Data.Version))[k]?.map some =
        (selectTags self cliTags)[k]?.map
          (resolveEntry parse self.RootConfig.Data.Version) := by
    intro k
    have := congrArg (fun l => l[k]?) hmap
    simpa [List.getElem?_map] using this
  refine ⟨(selectTags self cliTags).filterMap
    (resolveEntry parse self.RootConfig.Data.Version), ?_, ?_, ?_, ?_⟩
  · exact processLoop_all_ok parse _ self hall
  · exact filterMap_resolveEntry_length parse _ _ hall
  · intro k i im hk hi
    have h := hget k
    rw [hk, Option.map_some', resolveEntry_ok parse _ i im hi] at h
    cases hk2 : ((selectTags self cliTags).filterMap
        (resolveEntry parse self.RootConfig.Data.Version))[k]? with
    | none => rw [hk2] at h; simp at h
    | some x =>
      rw [hk2] at h
      simp only [Option.map_some', Option.some.injEq] at h
      rw [h]
  · intro j k hjk
    have hj := hget j
    have hk := hget k
    rw [hjk, ← hk] at hj
    cases h1 : ((selectTags self cliTags).filterMap
        (resolveEntry parse self.RootConfig.Data.Version))[j]? <;>
    cases h2 : ((selectTags self cliTags).filterMap
        (resolveEntry parse self.RootConfig.Data.Version))[k]? <;>
    simp_all

/-- C3 at a concrete input with a repeated entry: three source entries give three
tags, in source order, the repeated entry twice. -/
theorem ProcessTags_order_preserving_witness :
    (∀ i ∈ selectTags (sampleOptions "2.0.0") ["app", "myregistry.io/app:latest", "app"],
        ∃ im, NewDockerMeta i = .ok im) ∧
      ∃ added : List String,
        ProcessTags NewDockerMeta (sampleOptions "2.0.0")
            ["app", "myregistry.io/app:latest", "app"] =
          ({ sampleOptions "2.0.0" with
             DockerTags := (sampleOptions "2.0.0").DockerTags ++ added }, none) ∧
        added.length = 3 ∧
        added[0]? = some "docker.io/library/app:2.0.0" ∧
        added[2]? = added[0]? := by
  have hall : ∀ i ∈ selectTags (sampleOptions "2.0.0")
      ["app", "myregistry.io/app:latest", "app"], ∃ im, NewDockerMeta i = .ok im := by
    intro i hi
    have hs : selectTags (sampleOptions "2.0.0") ["app", "myregistry.io/app:latest", "app"] =
        ["app", "myregistry.io/app:latest", "app"] := rfl
    rw [hs] at hi
    simp only [List.mem_cons, List.mem_singleton, List.not_mem_nil, or_false] at hi
    rcases hi with rfl | rfl | rfl
    · exact ⟨{ Name := "docker.io/library/app", Tag := "latest" }, rfl⟩
    · exact ⟨{ Name := "myregistry.io/app", Tag := "latest" }, rfl⟩
    · exact ⟨{ Name := "docker.io/library/app", Tag := "latest" }, rfl⟩
  obtain ⟨added, hres, hlen, hkth, hdup⟩ :=
    ProcessTags_order_preserving NewDockerMeta (sampleOptions "2.0.0")
      ["app", "myregistry.io/app:latest", "app"] hall
  refine ⟨hall, added, hres, hlen, ?_, hdup 2 0 rfl⟩
  exact hkth 0 "app" { Name := "docker.io/library/app", Tag := "latest" } rfl rfl

/-- C4 (as amended): tag resolution aborts at the first entry that fails to parse.
`ProcessTags` returns the parser's error for that entry and resolves nothing after it;
the tags resolved from the entries before it, one for each, have been appended and stay
in `DockerTags`. -/
theorem ProcessTags_error_keeps_resolved (parse : String → Except Error DockerMeta)
    (self : Options) (cliTags pre post : List String) (bad : String) (err : Error)
    (hsel : selectTags self cliTags = pre ++ bad :: post)
    (hpre : ∀ i ∈ pre, ∃ im, parse i = .ok im)
    (hbad : parse bad = .error err) :
    ProcessTags parse self cliTags =
        ({ self with
           DockerTags := self.DockerTags ++
             pre.filterMap (resolveEntry parse self.RootConfig.Data.Version) }, some err) ∧
      (pre.filterMap (resolveEntry parse self.RootConfig.Data.Version)).length =
        pre.length := by
  refine ⟨?_, filterMap_resolveEntry_length parse _ pre hpre⟩
  unfold ProcessTags
  rw [hsel, processLoop_append_ok parse pre (bad :: post) self hpre,
    processLoop_cons_error parse _ bad post err hbad]

/-- C4 at a concrete input: the malformed entry `app:` after the entry `app`. -/
theorem ProcessTags_error_keeps_resolved_witness :
    selectTags (sampleOptions "2.0.0") ["app", "app:", "other"] = ["app"] ++ "app:" :: ["other"] ∧
      NewDockerMeta "app:" = .error (.InvalidReferenceError "app:") ∧
      ProcessTags NewDockerMeta (sampleOptions "2.0.0") ["app", "app:", "other"] =
        ({ sampleOptions "2.0.0" with
           DockerTags := (sampleOptions "2.0.0").DockerTags ++
             ["app"].filterMap (resolveEntry NewDockerMeta "2.0.0") },
          some (.InvalidReferenceError "app:")) :=
  ⟨rfl, rfl,
    (ProcessTags_error_keeps_resolved NewDockerMeta (sampleOptions "2.0.0")
      ["app", "app:", "other"] ["app"] ["other"] "app:" (.InvalidReferenceError "app:") rfl
      (by
        intro i hi
        rw [List.mem_singleton] at hi
        subst hi
        exact ⟨{ Name := "docker.io/library/app", Tag := "latest" }, rfl⟩)
      rfl).1⟩

/-- C4, counterexample: with the source list `app`, `app:` the call returns the parse
error of `app:`, and `DockerTags`, empty before the call, holds the tag resolved from
`app` after it. -/
theorem ProcessTags_failure_leaves_partial_tags :
    (sampleOptions "2.0.0").DockerTags = [] ∧
      ProcessTags NewDockerMeta (sampleOptions "2.0.0") ["app", "app:"] =
        ({ sampleOptions "2.0.0" with DockerTags := ["docker.io/library/app:2.0.0"] },
          some (.InvalidReferenceError "app:")) ∧
      (ProcessTags NewDockerMeta (sampleOptions "2.0.0") ["app", "app:"]).1.DockerTags ≠
        (sampleOptions "2.0.0").DockerTags := by
  decide

/-- C8 (as amended): a raw string without a tag whose parsed name is the raw string
itself, such as the registry-qualified `myregistry.io/app`, is version-substituted: the
entry appended for it is `joinTag i configVersion`, whatever tag the parser inferred. -/
theorem ProcessTags_qualified_untagged_substituted
    (parse : String → Except Error DockerMeta) (self : Options)
    (cliTags pre post : List String) (i : String) (im : DockerMeta)
    (hsel : selectTags self cliTags = pre ++ i :: post)
    (hpre : ∀ j ∈ pre, ∃ m, parse j = .ok m)
    (hi : parse i = .ok im) (hname : im.Name = i) :
    (ProcessTags parse self cliTags).1.DockerTags[self.DockerTags.length + pre.length]? =
      some (joinTag i self.RootConfig.Data.Version) := by
  rw [ProcessTags_entry_at parse self cliTags pre post i im hsel hpre hi]
  simp [hname]

/-- C8 at a concrete input: `myregistry.io/app` under version `2.0.0`. -/
theorem ProcessTags_qualified_untagged_substituted_witness :
    NewDockerMeta "myregistry.io/app" = .ok { Name := "myregistry.io/app", Tag := "latest" } ∧
      (ProcessTags NewDockerMeta (sampleOptions "2.0.0")
          ["myregistry.io/app"]).1.DockerTags[0 + 0]? =
        some (joinTag "myregistry.io/app" "2.0.0") :=
  ⟨rfl,
    ProcessTags_qualified_untagged_substituted NewDockerMeta (sampleOptions "2.0.0")
      ["myregistry.io/app"] [] [] "myregistry.io/app"
      { Name := "myregistry.io/app", Tag := "latest" } rfl
      (by intro j hj; cases hj) rfl rfl⟩

/-- C8, counterexample: the registry-qualified `myregistry.io/app` has no tag, the
parser infers `latest` for it, and `ProcessTags` resolves it to `myregistry.io/app:2.0.0`:
the inferred tag is overridden with the configured version. -/
theorem ProcessTags_qualified_untagged_overridden :
    NewDockerMeta "myregistry.io/app" = .ok { Name := "myregistry.io/app", Tag := "latest" } ∧
      ProcessTags NewDockerMeta (sampleOptions "2.0.0") ["myregistry.io/app"] =
        ({ sampleOptions "2.0.0" with DockerTags := ["myregistry.io/app:2.0.0"] }, none) ∧
      (ProcessTags NewDockerMeta (sampleOptions "2.0.0") ["myregistry.io/app"]).1.DockerTags ≠
        [joinTag "myregistry.io/app" "latest"] := by
  refine ⟨rfl, ?_, ?_⟩ <;> decide

/-- C9 (as amended): re-resolution is a fixed point whenever the parser maps every
resolved string `name:tag` back to that name and tag, where `tag` is the configured
version for a version-substituted entry.  Then each resolved string parses, and running
`ProcessTags` with the resolved list as CLI tags, on any session, appends exactly the
resolved list. -/
theorem ProcessTags_reresolve_fixed (parse : String → Except Error DockerMeta)
    (self other : Options) (cliTags : List String)
    (hok : (ProcessTags parse self cliTags).2 = none)
    (hround : ∀ (i : String) (im : DockerMeta), i ∈ selectTags self cliTags →
      parse i = .ok im →
      parse (joinTag im.Name
          (if i = im.Name ∨ "docker.io/library/" ++ i = im.Name then
            self.RootConfig.Data.Version else im.Tag)) =
        .ok { Name := im.Name,
              Tag := if i = im.Name ∨ "docker.io/library/" ++ i = im.Name then
                self.RootConfig.Data.Version else im.Tag }) :
    ∃ resolved : List String,
      (ProcessTags parse self cliTags).1.DockerTags = self.DockerTags ++ resolved ∧
        (∀ r ∈ resolved, ∃ im, parse r = .ok im) ∧
        ProcessTags parse other resolved =
          ({ other with DockerTags := other.DockerTags ++ resolved }, none) := by
  have hall : ∀ i ∈ selectTags self cliTags, ∃ im, parse i = .ok im :=
    processLoop_none_all_ok parse _ self hok
  have hfix : ∀ r ∈ (selectTags self cliTags).filterMap
      (resolveEntry parse self.RootConfig.Data.Version),
      ∃ name tag, r = joinTag name tag ∧ parse r = .ok { Name := name, Tag := tag } := by
    intro r hr
    obtain ⟨i, hi, hri⟩ := List.mem_filterMap.mp hr
    obtain ⟨im, him⟩ := hall i hi
    rw [resolveEntry_ok parse _ i im him] at hri
    have hr2 := Option.some.inj hri
    refine ⟨im.Name, _, hr2.symm, ?_⟩
    rw [← hr2]
    exact hround i im hi him
  have hne : (selectTags self cliTags).filterMap
      (resolveEntry parse self.RootConfig.Data.Version) ≠ [] := by
    intro h
    have hlen := filterMap_resolveEntry_length parse self.RootConfig.Data.Version
      (selectTags self cliTags) hall
    rw [h] at hlen
    exact selectTags_ne_nil self cliTags (List.length_eq_zero.mp hlen.symm)
  refine ⟨(selectTags self cliTags).filterMap
    (resolveEntry parse self.RootConfig.Data.Version), ?_, ?_, ?_⟩
  · unfold ProcessTags
    rw [processLoop_all_ok parse _ self hall]
  · intro r hr
    obtain ⟨name, tag, _, hp⟩ := hfix r hr
    exact ⟨_, hp⟩
  · have hsel : selectTags other ((selectTags self cliTags).filterMap
        (resolveEntry parse self.RootConfig.Data.Version)) =
        (selectTags self cliTags).filterMap
          (resolveEntry parse self.RootConfig.Data.Version) := by
      exact selectTags_cli other _ hne
    unfold ProcessTags
    rw [hsel]
    exact processLoop_fixed parse _ other hfix

/-- C9 at a concrete input: the scenario list under version `2.0.0`. -/
theorem ProcessTags_reresolve_fixed_witness :
    (ProcessTags NewDockerMeta (sampleOptions "2.0.0")
        ["myregistry.io/app:latest", "app"]).2 = none ∧
      ∃ resolved : List String,
        (ProcessTags NewDockerMeta (sampleOptions "2.0.0")
            ["myregistry.io/app:latest", "app"]).1.DockerTags =
          (sampleOptions "2.0.0").DockerTags ++ resolved ∧
        (∀ r ∈ resolved, ∃ im, NewDockerMeta r = .ok im) ∧
        ProcessTags NewDockerMeta (sampleOptions "2.0.0") resolved =
          ({ sampleOptions "2.0.0" with
             DockerTags := (sampleOptions "2.0.0").DockerTags ++ resolved }, none) :=
  ⟨rfl,
    ProcessTags_reresolve_fixed NewDockerMeta (sampleOptions "2.0.0") (sampleOptions "2.0.0")
      ["myregistry.io/app:latest", "app"] rfl
      (by
        intro i im hi him
        have hs : selectTags (sampleOptions "2.0.0") ["myregistry.io/app:latest", "app"] =
            ["myregistry.io/app:latest", "app"] := rfl
        rw [hs] at hi
        simp only [List.mem_cons, List.mem_singleton, List.not_mem_nil, or_false] at hi
        rcases hi with rfl | rfl
        · have h1 : NewDockerMeta "myregistry.io/app:latest" =
              .ok { Name := "myregistry.io/app", Tag := "latest" } := rfl
          rw [h1] at him
          cases him
          rfl
        · have h2 : NewDockerMeta "app" =
              .ok { Name := "docker.io/library/app", Tag := "latest" } := rfl
          rw [h2] at him
          cases him
          rfl)⟩

/-- C9, counterexample: a configured version that is not a legal tag.  The reference
parser maps `name:tag` of every reference it produces back to the same name and tag.
Yet with the empty version the entry `app` resolves to `docker.io/library/app:`, which
does not parse, so re-resolution returns the parser's error; likewise for the version
`1.0.0+build7`. -/
theorem ProcessTags_reresolve_fails_for_illegal_version :
    (∀ (raw : String) (im : DockerMeta), NewDockerMeta raw = .ok im →
        NewDockerMeta (joinTag im.Name im.Tag) = .ok im) ∧
      ProcessTags NewDockerMeta (sampleOptions "") ["app"] =
        ({ sampleOptions "" with DockerTags := ["docker.io/library/app:"] }, none) ∧
      ProcessTags NewDockerMeta (sampleOptions "") ["docker.io/library/app:"] =
        (sampleOptions "", some (.InvalidReferenceError "docker.io/library/app:")) ∧
      ProcessTags NewDockerMeta (sampleOptions "1.0.0+build7") ["app"] =
        ({ sampleOptions "1.0.0+build7" with
           DockerTags := ["docker.io/library/app:1.0.0+build7"] }, none) ∧
      ProcessTags NewDockerMeta (sampleOptions "1.0.0+build7")
          ["docker.io/library/app:1.0.0+build7"] =
        (sampleOptions "1.0.0+build7",
          some (.InvalidReferenceError "docker.io/library/app:1.0.0+build7")) := by
  refine ⟨NewDockerMeta_roundtrip, ?_, ?_, ?_, ?_⟩ <;> decide

/-! ## `AddCarbonMetadata` -/

theorem mapLookup_mapStore_self {β : Type} (m : GoMap β) (k : String) (v : β) :
    mapLookup (mapStore m k v) k = some v := by
  induction m with
  | nil => simp [mapStore, mapLookup]
  | cons entry rest ih =>
    obtain ⟨k', v'⟩ := entry
    by_cases h : k' = k
    · simp [mapStore, mapLookup, h]
    · simp [mapStore, mapLookup, h, ih]

theorem mapLookup_mapStore_ne {β : Type} (m : GoMap β) (k k' : String) (v : β)
    (hne : k' ≠ k) : mapLookup (mapStore m k v) k' = mapLookup m k' := by
  induction m with
  | nil =>
    have : k ≠ k' := fun h => hne h.symm
    simp [mapStore, mapLookup, this]
  | cons entry rest ih =>
    obtain ⟨k₀, v₀⟩ := entry
    by_cases h : k₀ = k
    · subst h
      have : k₀ ≠ k' := fun h => hne h.symm
      simp [mapStore, mapLookup, this]
    · by_cases h2 : k₀ = k'
      · subst h2
        simp [mapStore, mapLookup, h]
      · simp [mapStore, mapLookup, h, h2, ih]

/-- The loop of `AddCarbonMetadata` on an initialised label map: it never panics, stores
every entry of `meta`, leaves the other keys alone, and warns once for every key of
`meta` that the label map had at the start. -/
theorem addMetadataLoop_spec :
    ∀ (meta : List (String × String)) (self : Options) (labels : GoMap String)
      (warnings : List String),
      self.DockerLabels = some labels →
      (meta.map Prod.fst).Nodup →
      ∃ merged : GoMap String,
        addMetadataLoop meta self warnings =
            some ({ self with DockerLabels := some merged },
              warnings ++
                ((meta.map Prod.fst).filter (fun k => (mapLookup labels k).isSome)).map
                  reservedLabelWarning) ∧
          (∀ k v, (k, v) ∈ meta → mapLookup merged k = some v) ∧
          (∀ k, k ∉ meta.map Prod.fst → mapLookup merged k = mapLookup labels k) := by
  intro meta
  induction meta with
  | nil =>
    intro self labels warnings hinit _
    refine ⟨labels, ?_, ?_, ?_⟩
    · simp [addMetadataLoop, ← hinit]
    · intro k v h; cases h
    · intro k _; rfl
  | cons entry rest ih =>
    intro self labels warnings hinit hkeys
    obtain ⟨k, v⟩ := entry
    rw [List.map_cons, List.nodup_cons] at hkeys
    obtain ⟨hk, hrest⟩ := hkeys
    obtain ⟨merged, hrun, hstored, hother⟩ :=
      ih { self with DockerLabels := some (mapStore labels k v) } (mapStore labels k v)
        (if labelPresent self.DockerLabels k then warnings ++ [reservedLabelWarning k]
          else warnings) rfl hrest
    have hfilter :
        (rest.map Prod.fst).filter (fun k' => (mapLookup (mapStore labels k v) k').isSome) =
          (rest.map Prod.fst).filter (fun k' => (mapLookup labels k').isSome) := by
      apply List.filter_congr
      intro k' hk'
      have hne : k' ≠ k := fun h => hk (h ▸ hk')
      rw [mapLookup_mapStore_ne labels k k' v hne]
    refine ⟨merged, ?_, ?_, ?_⟩
    · simp only [addMetadataLoop, hinit]
      rw [hinit] at hrun
      rw [hrun, hfilter]
      by_cases hp : (mapLookup labels k).isSome = true
      · simp [labelPresent, hp, List.filter_cons]
      · simp [labelPresent, hp, List.filter_cons]
    · intro k' v' hmem
      rcases List.mem_cons.mp hmem with heq | hmem'
      · cases heq
        rw [hother k hk, mapLookup_mapStore_self]
      · exact hstored k' v' hmem'
    · intro k' hk'
      rw [List.map_cons, List.mem_cons, not_or] at hk'
      rw [hother k' hk'.2, mapLookup_mapStore_ne labels k k' v hk'.1]

theorem reservedLabelWarning_names_key (k : String) :
    containsString (reservedLabelWarning k) k := by
  unfold containsString reservedLabelWarning
  simp only [String.data_append]
  exact ⟨_, _, rfl⟩

/-- C7: label merge.  For every initialised label map `labels` and every metadata map
`meta` (its entries in any iteration order, keys pairwise distinct), the call does not
fail; afterwards the label map sends every key of `meta` to its value in `meta`, so a
colliding user value is overwritten, and every other key to its previous value; the
warnings passed to `log.Warnf` are one message for every key of `meta` that was present
in `labels`, so their number is the number of such keys, and each message contains its
key. -/
theorem AddCarbonMetadata_label_merge (self : Options) (labels : GoMap String)
    (meta : List (String × String))
    (hinit : self.DockerLabels = some labels)
    (hkeys : (meta.map Prod.fst).Nodup) :
    ∃ (merged : GoMap String) (warnings : List String),
      AddCarbonMetadata self meta =
          some ({ self with DockerLabels := some merged }, warnings) ∧
        (∀ k v, (k, v) ∈ meta → mapLookup merged k = some v) ∧
        (∀ k, k ∉ meta.map Prod.fst → mapLookup merged k = mapLookup labels k) ∧
        warnings =
          ((meta.map Prod.fst).filter (fun k => (mapLookup labels k).isSome)).map
            reservedLabelWarning ∧
        warnings.length =
          (meta.map Prod.fst).countP (fun k => (mapLookup labels k).isSome) ∧
        (∀ k, containsString (reservedLabelWarning k) k) := by
  obtain ⟨merged, hrun, hstored, hother⟩ := addMetadataLoop_spec meta self labels [] hinit hkeys
  refine ⟨merged, _, ?_, hstored, hother, rfl, ?_, reservedLabelWarning_names_key⟩
  · simpa [AddCarbonMetadata] using hrun
  · rw [List.length_map, List.countP_eq_length_filter]

/-- C7, the scenario of the claim: the label `carbon.build` holds `user-value` and the
metadata sets it to `abc123`.  The final value is `abc123` and exactly one warning is
logged, naming `carbon.build`. -/
theorem AddCarbonMetadata_label_merge_witness :
    ([("carbon.build", "abc123")].map Prod.fst).Nodup ∧
      ∃ (merged : GoMap String) (warnings : List String),
        AddCarbonMetadata
            { sampleOptions "2.0.0" with DockerLabels := some [("carbon.build", "user-value")] }
            [("carbon.build", "abc123")] =
          some ({ sampleOptions "2.0.0" with DockerLabels := some merged }, warnings) ∧
        mapLookup merged "carbon.build" = some "abc123" ∧
        warnings = ["Label 'carbon.build' is reserved by Carbon and can't be used"] := by
  have hkeys : ([("carbon.build", "abc123")].map Prod.fst).Nodup := by decide
  obtain ⟨merged, warnings, hrun, hstored, _, hwarn, _, _⟩ :=
    AddCarbonMetadata_label_merge
      { sampleOptions "2.0.0" with DockerLabels := some [("carbon.build", "user-value")] }
      [("carbon.build", "user-value")] [("carbon.build", "abc123")] rfl hkeys
  refine ⟨hkeys, merged, warnings, hrun, hstored _ _ (List.mem_singleton.mpr rfl), ?_⟩
  rw [hwarn]
  decide

/-! ## `Push` and `Build` -/

theorem pushLoop_cons_parse_error (env : Collaborators) (i : String) (rest : List String)
    (calls : List PushCall) (err : Error) (h : env.NewDockerMeta i = .error err) :
    pushLoop env (i :: rest) calls = (calls, some err) := by
  simp [pushLoop, h]

theorem pushLoop_cons_credentials_error (env : Collaborators) (i : String)
    (rest : List String) (calls : List PushCall) (im : DockerMeta) (err : Error)
    (h : env.NewDockerMeta i = .ok im) (hc : env.GetCredentials im = .error err) :
    pushLoop env (i :: rest) calls =
      (calls, some (Error.Wrap err "getting registry credentials")) := by
  simp [pushLoop, h, hc]

theorem pushLoop_cons_push_error (env : Collaborators) (i : String) (rest : List String)
    (calls : List PushCall) (im : DockerMeta) (username password : String) (err : Error)
    (h : env.NewDockerMeta i = .ok im)
    (hc : env.GetCredentials im = .ok (username, password))
    (hp : env.ImagePush calls i
      ⟨env.EncodeToString (env.Marshal ⟨username, password⟩)⟩ = .error err) :
    pushLoop env (i :: rest) calls =
      (calls ++ [⟨i, ⟨env.EncodeToString (env.Marshal ⟨username, password⟩)⟩⟩],
        some (Error.Wrap err ("pushing Docker image `" ++ i ++ "`"))) := by
  simp [pushLoop, h, hc, hp]

theorem pushLoop_cons_pushed (env : Collaborators) (i : String) (rest : List String)
    (calls : List PushCall) (im : DockerMeta) (username password : String)
    (response : StatusStream)
    (h : env.NewDockerMeta i = .ok im)
    (hc : env.GetCredentials im = .ok (username, password))
    (hp : env.ImagePush calls i
      ⟨env.EncodeToString (env.Marshal ⟨username, password⟩)⟩ = .ok response) :
    pushLoop env (i :: rest) calls =
      pushLoop env rest
        (calls ++ [⟨i, ⟨env.EncodeToString (env.Marshal ⟨username, password⟩)⟩⟩]) := by
  simp [pushLoop, h, hc, hp]

/-- The loop over `xs ++ ys` runs the loop over `xs` and, when that returns no error,
goes on with `ys` from the log it left. -/
theorem pushLoop_append (env : Collaborators) (ys : List String) :
    ∀ (xs : List String) (calls : List PushCall),
      pushLoop env (xs ++ ys) calls =
        if (pushLoop env xs calls).2 = none then
          pushLoop env ys (pushLoop env xs calls).1
        else pushLoop env xs calls := by
  intro xs
  induction xs with
  | nil => intro calls; simp [pushLoop]
  | cons i rest ih =>
    intro calls
    rw [List.cons_append]
    cases h : env.NewDockerMeta i with
    | error err =>
      simp [pushLoop_cons_parse_error env i _ calls err h]
    | ok im =>
      cases hc : env.GetCredentials im with
      | error err =>
        simp [pushLoop_cons_credentials_error env i _ calls im err h hc]
      | ok cred =>
        obtain ⟨username, password⟩ := cred
        cases hp : env.ImagePush calls i
          ⟨env.EncodeToString (env.Marshal ⟨username, password⟩)⟩ with
        | error err =>
          simp [pushLoop_cons_push_error env i _ calls im username password err h hc hp]
        | ok response =>
          rw [pushLoop_cons_pushed env i _ calls im username password response h hc hp,
            pushLoop_cons_pushed env i _ calls im username password response h hc hp]
          exact ih _

/-- A loop that returns no error has issued one call for every tag, in order. -/
theorem pushLoop_images_of_ok (env : Collaborators) :
    ∀ (xs : List String) (calls : List PushCall),
      (pushLoop env xs calls).2 = none →
      (pushLoop env xs calls).1.map PushCall.image = calls.map PushCall.image ++ xs := by
  intro xs
  induction xs with
  | nil => intro calls _; simp [pushLoop]
  | cons i rest ih =>
    intro calls hok
    cases h : env.NewDockerMeta i with
    | error err =>
      rw [pushLoop_cons_parse_error env i _ calls err h] at hok
      cases hok
    | ok im =>
      cases hc : env.GetCredentials im with
      | error err =>
        rw [pushLoop_cons_credentials_error env i _ calls im err h hc] at hok
        cases hok
      | ok cred =>
        obtain ⟨username, password⟩ := cred
        cases hp : env.ImagePush calls i
          ⟨env.EncodeToString (env.Marshal ⟨username, password⟩)⟩ with
        | error err =>
          rw [pushLoop_cons_push_error env i _ calls im username password err h hc hp] at hok
          cases hok
        | ok response =>
          rw [pushLoop_cons_pushed env i _ calls im username password response h hc hp]
            at hok ⊢
          rw [ih _ hok]
          simp

/-- The calls issued by a single pass of the loop: one call for the tag when it parses
and its credentials resolve, none otherwise. -/
theorem pushLoop_single_images (env : Collaborators) (t : String) (calls : List PushCall) :
    ((∃ im cred, env.NewDockerMeta t = .ok im ∧ env.GetCredentials im = .ok cred) →
        (pushLoop env [t] calls).1.map PushCall.image = calls.map PushCall.image ++ [t]) ∧
      ((¬ ∃ im cred, env.NewDockerMeta t = .ok im ∧ env.GetCredentials im = .ok cred) →
        (pushLoop env [t] calls).1.map PushCall.image = calls.map PushCall.image) := by
  cases h : env.NewDockerMeta t with
  | error err =>
    rw [pushLoop_cons_parse_error env t _ calls err h]
    refine ⟨?_, fun _ => rfl⟩
    rintro ⟨im, cred, him, _⟩
    cases him
  | ok im =>
    cases hc : env.GetCredentials im with
    | error err =>
      rw [pushLoop_cons_credentials_error env t _ calls im err h hc]
      refine ⟨?_, fun _ => rfl⟩
      rintro ⟨im', cred, him, hcred⟩
      cases him
      rw [hc] at hcred
      cases hcred
    | ok cred =>
      obtain ⟨username, password⟩ := cred
      cases hp : env.ImagePush calls t
        ⟨env.EncodeToString (env.Marshal ⟨username, password⟩)⟩ with
      | error err =>
        rw [pushLoop_cons_push_error env t _ calls im username password err h hc hp]
        refine ⟨fun _ => by simp, fun hn => absurd ⟨im, _, rfl, hc⟩ hn⟩
      | ok response =>
        rw [pushLoop_cons_pushed env t _ calls im username password response h hc hp]
        refine ⟨fun _ => by simp [pushLoop], fun hn => absurd ⟨im, _, rfl, hc⟩ hn⟩

/-- The tags before the failing one pushed without error: the run over the whole list
is the single pass for the failing tag, started from the log of the tags before it. -/
theorem Push_split (env : Collaborators) (self : Options) (pre post : List String)
    (t : String) (htags : self.DockerTags = pre ++ t :: post)
    (hpre : (Push env { self with DockerTags := pre }).2 = none) :
    Push env { self with DockerTags := pre ++ [t] } =
        pushLoop env [t] (pushLoop env pre []).1 ∧
      ((pushLoop env [t] (pushLoop env pre []).1).2 ≠ none →
        Push env self = pushLoop env [t] (pushLoop env pre []).1) ∧
      (pushLoop env pre []).1.map PushCall.image = pre := by
  have hpre2 : (pushLoop env pre []).2 = none := hpre
  have h1 : pushLoop env (pre ++ [t]) [] = pushLoop env [t] (pushLoop env pre []).1 := by
    rw [pushLoop_append env [t] pre [], if_pos hpre2]
  refine ⟨h1, ?_, ?_⟩
  · intro hfail
    unfold Push
    rw [htags]
    have : pre ++ t :: post = (pre ++ [t]) ++ post := by simp
    rw [this, pushLoop_append env post (pre ++ [t]) [], h1, if_neg hfail]
  · simpa using pushLoop_images_of_ok env pre [] hpre2

/-- C5 (as amended): `Push` is fail-fast.  When the tags before index `i` push without
error and the push of the tag `t` at index `i` fails, `Push` returns an error and does
exactly what it does on the list cut after `t`, so no tag behind `t` is looked at.  The
push calls issued are those for the tags before `t`, in order, followed by the call for
`t` itself when `t` parsed and its credentials resolved (the engine call was the step
that failed), and by nothing when the parse or the credential lookup failed. -/
theorem Push_fail_fast (env : Collaborators) (self : Options) (pre post : List String)
    (t : String) (htags : self.DockerTags = pre ++ t :: post)
    (hpre : (Push env { self with DockerTags := pre }).2 = none)
    (hfail : (Push env { self with DockerTags := pre ++ [t] }).2 ≠ none) :
    (Push env self).2 ≠ none ∧
      Push env self = Push env { self with DockerTags := pre ++ [t] } ∧
      ((∃ im cred, env.NewDockerMeta t = .ok im ∧ env.GetCredentials im = .ok cred) →
        (Push env self).1.map PushCall.image = pre ++ [t]) ∧
      ((¬ ∃ im cred, env.NewDockerMeta t = .ok im ∧ env.GetCredentials im = .ok cred) →
        (Push env self).1.map PushCall.image = pre) := by
  obtain ⟨h1, h2, h3⟩ := Push_split env self pre post t htags hpre
  rw [h1] at hfail
  have hself := h2 hfail
  have hsingle := pushLoop_single_images env t (pushLoop env pre []).1
  rw [h3] at hsingle
  refine ⟨by rw [hself]; exact hfail, by rw [hself, h1], ?_, ?_⟩
  · intro hreach
    rw [hself]
    exact hsingle.1 hreach
  · intro hreach
    rw [hself]
    exact hsingle.2 hreach

/-- C5 at a concrete input: three tags, the engine refuses the push of the second. -/
theorem Push_fail_fast_witness :
    (Push sampleEnv
        { sampleOptions "2.0.0" with DockerTags := ["docker.io/library/app:2.0.0"] }).2 = none ∧
      (Push sampleEnv
        { sampleOptions "2.0.0" with
          DockerTags := ["docker.io/library/app:2.0.0"] ++
            ["docker.io/library/broken:1.0"] }).2 ≠ none ∧
      (Push sampleEnv
        { sampleOptions "2.0.0" with
          DockerTags := ["docker.io/library/app:2.0.0", "docker.io/library/broken:1.0",
            "docker.io/library/other:1"] }).1.map PushCall.image =
        ["docker.io/library/app:2.0.0"] ++ ["docker.io/library/broken:1.0"] :=
  ⟨by decide, by decide,
    (Push_fail_fast sampleEnv
      { sampleOptions "2.0.0" with
        DockerTags := ["docker.io/library/app:2.0.0", "docker.io/library/broken:1.0",
          "docker.io/library/other:1"] }
      ["docker.io/library/app:2.0.0"] ["docker.io/library/other:1"]
      "docker.io/library/broken:1.0" rfl (by decide) (by decide)).2.2.1
      ⟨{ Name := "docker.io/library/broken", Tag := "1.0" }, ("carbon", "secret"), rfl, rfl⟩⟩

/-- C5, counterexample: the push fails at index 0 in both runs.  When the credentials
of the only tag cannot be resolved, no push call is issued at all, not even for index
0; when the engine refuses the push call, the call for index 0 has been issued. -/
theorem Push_failed_tag_call_depends_on_step :
    Push sampleEnv { sampleOptions "2.0.0" with DockerTags := ["myregistry.io/app:1.0"] } =
        ([], some (.Wrap (.CredentialsUnavailableError "myregistry.io")
          "getting registry credentials")) ∧
      (Push sampleEnv
          { sampleOptions "2.0.0" with
            DockerTags := ["myregistry.io/app:1.0"] }).1.map PushCall.image ≠
        ["myregistry.io/app:1.0"] ∧
      Push sampleEnv
          { sampleOptions "2.0.0" with DockerTags := ["docker.io/library/broken:1.0"] } =
        ([⟨"docker.io/library/broken:1.0", ⟨"carbon:secret"⟩⟩],
          some (.Wrap (.EngineError "connection refused")
            "pushing Docker image `docker.io/library/broken:1.0`")) := by
  refine ⟨?_, ?_, ?_⟩ <;> decide

/-- The context message of a failed push call contains the tag. -/
theorem pushing_message_names_tag (t : String) :
    containsString ("pushing Docker image `" ++ t ++ "`") t := by
  unfold containsString
  simp only [String.data_append]
  exact ⟨_, _, rfl⟩

/-- C10 (as amended): what `Push` returns when the push of the tag `t` fails after the
tags before it pushed without error.  A failed engine push call is wrapped with the
message "pushing Docker image" followed by `t` in backquotes, which contains `t`; a
failed credential lookup is wrapped with the fixed message
"getting registry credentials"; a parse error is returned as the parser gave it. -/
theorem Push_error_context (env : Collaborators) (self : Options) (pre post : List String)
    (t : String) (htags : self.DockerTags = pre ++ t :: post)
    (hpre : (Push env { self with DockerTags := pre }).2 = none) :
    (∀ err, env.NewDockerMeta t = .error err → (Push env self).2 = some err) ∧
      (∀ im err, env.NewDockerMeta t = .ok im → env.GetCredentials im = .error err →
        (Push env self).2 = some (.Wrap err "getting registry credentials")) ∧
      (∀ im username password err, env.NewDockerMeta t = .ok im →
        env.GetCredentials im = .ok (username, password) →
        env.ImagePush (Push env { self with DockerTags := pre }).1 t
          ⟨env.EncodeToString (env.Marshal ⟨username, password⟩)⟩ = .error err →
        (Push env self).2 = some (.Wrap err ("pushing Docker image `" ++ t ++ "`")) ∧
        containsString ("pushing Docker image `" ++ t ++ "`") t) := by
  obtain ⟨_, h2, _⟩ := Push_split env self pre post t htags hpre
  refine ⟨?_, ?_, ?_⟩
  · intro err h
    have hs := pushLoop_cons_parse_error env t [] (pushLoop env pre []).1 err h
    rw [h2 (by rw [hs]; simp), hs]
  · intro im err h hc
    have hs := pushLoop_cons_credentials_error env t [] (pushLoop env pre []).1 im err h hc
    rw [h2 (by rw [hs]; simp), hs]
  · intro im username password err h hc hp
    have hs := pushLoop_cons_push_error env t [] (pushLoop env pre []).1 im username
      password err h hc hp
    refine ⟨?_, pushing_message_names_tag t⟩
    rw [h2 (by rw [hs]; simp), hs]

/-- C10 at a concrete input: the engine refuses the push of the second tag, and the
returned error is wrapped with a message that names this tag. -/
theorem Push_error_context_witness :
    (Push sampleEnv
        { sampleOptions "2.0.0" with DockerTags := ["docker.io/library/app:2.0.0"] }).2 = none ∧
      (Push sampleEnv
        { sampleOptions "2.0.0" with
          DockerTags := ["docker.io/library/app:2.0.0", "docker.io/library/broken:1.0"] }).2 =
        some (.Wrap (.EngineError "connection refused")
          ("pushing Docker image `" ++ "docker.io/library/broken:1.0" ++ "`")) :=
  ⟨by decide,
    ((Push_error_context sampleEnv
      { sampleOptions "2.0.0" with
        DockerTags := ["docker.io/library/app:2.0.0", "docker.io/library/broken:1.0"] }
      ["docker.io/library/app:2.0.0"] [] "docker.io/library/broken:1.0" rfl (by decide)).2.2
      { Name := "docker.io/library/broken", Tag := "1.0" } "carbon" "secret"
      (.EngineError "connection refused") rfl rfl rfl).1⟩

/-- C10, counterexample: the credentials of the second tag `myregistry.io/app:latest`
cannot be resolved.  The error returned by `Push` carries the single context message
"getting registry credentials", and no context message of it contains the tag. -/
theorem Push_credentials_error_omits_tag :
    (Push sampleEnv
        { sampleOptions "2.0.0" with
          DockerTags := ["docker.io/library/app:2.0.0", "myregistry.io/app:latest"] }).2 =
        some (.Wrap (.CredentialsUnavailableError "myregistry.io")
          "getting registry credentials") ∧
      (Error.Wrap (.CredentialsUnavailableError "myregistry.io")
          "getting registry credentials").contexts = ["getting registry credentials"] ∧
      ∀ c ∈ (Error.Wrap (.CredentialsUnavailableError "myregistry.io")
          "getting registry credentials").contexts,
        ¬ containsString c "myregistry.io/app:latest" := by
  refine ⟨?_, ?_, ?_⟩ <;> decide

/-- The result of `Push` does not depend on the stream relay: whatever
`DisplayJSONMessagesStream` returns for the response of a push call is dropped. -/
theorem pushLoop_ignores_relay (env : Collaborators)
    (relay : StatusStream → Writer → Nat → Bool → Option Error) :
    ∀ (tags : List String) (calls : List PushCall),
      pushLoop { env with DisplayJSONMessagesStream := relay } tags calls =
        pushLoop env tags calls := by
  intro tags
  induction tags with
  | nil => intro calls; rfl
  | cons i rest ih =>
    intro calls
    cases h : env.NewDockerMeta i with
    | error err =>
      rw [pushLoop_cons_parse_error env i rest calls err h]
      exact pushLoop_cons_parse_error { env with DisplayJSONMessagesStream := relay }
        i rest calls err h
    | ok im =>
      cases hc : env.GetCredentials im with
      | error err =>
        rw [pushLoop_cons_credentials_error env i rest calls im err h hc]
        exact pushLoop_cons_credentials_error { env with DisplayJSONMessagesStream := relay }
          i rest calls im err h hc
      | ok cred =>
        obtain ⟨username, password⟩ := cred
        cases hp : env.ImagePush calls i
          ⟨env.EncodeToString (env.Marshal ⟨username, password⟩)⟩ with
        | error err =>
          rw [pushLoop_cons_push_error env i rest calls im username password err h hc hp]
          exact pushLoop_cons_push_error { env with DisplayJSONMessagesStream := relay }
            i rest calls im username password err h hc hp
        | ok response =>
          rw [pushLoop_cons_pushed env i rest calls im username password response h hc hp,
            ← ih]
          exact pushLoop_cons_pushed { env with DisplayJSONMessagesStream := relay }
            i rest calls im username password response h hc hp

/-- C6, at the failing input: the engine answers the push of
`docker.io/library/denied:1.0` with a stream that holds an inline error.  The relay
`displayJSONMsg` returns an error for that stream, and `Push` returns no error; `Build`
on a build stream with an inline error returns the relay's error. -/
theorem Push_swallows_inline_stream_error :
    sampleEnv.ImagePush [] "docker.io/library/denied:1.0" ⟨"carbon:secret"⟩ =
        .ok [.Progress "Preparing",
          .ErrorDetail "denied: requested access to the resource is denied"] ∧
      displayJSONMsg sampleEnv [.Progress "Preparing",
          .ErrorDetail "denied: requested access to the resource is denied"] =
        some (.StreamDecodeError "denied: requested access to the resource is denied") ∧
      Push sampleEnv
          { sampleOptions "2.0.0" with DockerTags := ["docker.io/library/denied:1.0"] } =
        ([⟨"docker.io/library/denied:1.0", ⟨"carbon:secret"⟩⟩], none) ∧
      Build sampleEnv
          { sampleOptions "2.0.0" with
            RootConfig := { Data := { (sampleConfig "2.0.0").Data with
              Dockerfile := "Dockerfile.broken" } } } =
        some (.StreamDecodeError "COPY failed") := by
  refine ⟨rfl, ?_, ?_, ?_⟩ <;> decide


end Carbon
